import Mathlib

/-!
Verification of the modflow-devtools DFN pipeline: a shallow embedding of
the schema migration, hierarchy assembly, field parser and input transformer,
with theorems settling the specification's claims about them.
-/

namespace MFDev

instance {ε α : Type} [DecidableEq ε] [DecidableEq α] : DecidableEq (Except ε α) :=
  fun x y =>
  match x, y with
  | .ok a, .ok b =>
    if h : a = b then .isTrue (by rw [h]) else .isFalse (by intro hh; cases hh; exact h rfl)
  | .error a, .error b =>
    if h : a = b then .isTrue (by rw [h]) else .isFalse (by intro hh; cases hh; exact h rfl)
  | .ok _, .error _ => .isFalse (by intro hh; cases hh)
  | .error _, .ok _ => .isFalse (by intro hh; cases hh)

/-! ## Python-style string and dict helpers

The Lean core string functions (`String.splitOn`, `String.trim`, ...) are
defined by well-founded recursion on byte positions and do not reduce in the
kernel, so the Python string operations are implemented here structurally on
character lists; every definition in this file therefore evaluates under
`decide`/`rfl`. -/

/-- `pre` is a prefix of `cs`. -/
def leadsWith : List Char → List Char → Bool
  | [], _ => true
  | _ :: _, [] => false
  | a :: as, b :: bs => a == b && leadsWith as bs

/-- Left-to-right non-overlapping split on a nonempty separator, with fuel
(structural so that the kernel can evaluate it; `fuel = length + 1` always
suffices since each step consumes at least one character). -/
def splitOnLoop (sep : List Char) : ℕ → List Char → List Char → List (List Char)
  | 0, cs, acc => [acc.reverse ++ cs]
  | fuel + 1, cs, acc =>
    match cs with
    | [] => [acc.reverse]
    | c :: rest =>
      if leadsWith sep cs then acc.reverse :: splitOnLoop sep fuel (cs.drop sep.length) []
      else splitOnLoop sep fuel rest (c :: acc)

/-- Python `s.split(sep)` for nonempty `sep`. -/
def pySplitOn (s sep : String) : List String :=
  (splitOnLoop sep.data (s.data.length + 1) s.data []).map String.mk

/-- Find the first occurrence of nonempty `sep`, returning the text before
and after it. -/
def findSplit (sep : List Char) : ℕ → List Char → List Char → Option (List Char × List Char)
  | 0, _, _ => none
  | fuel + 1, cs, acc =>
    match cs with
    | [] => none
    | c :: rest =>
      if leadsWith sep cs then some (acc.reverse, cs.drop sep.length)
      else findSplit sep fuel rest (c :: acc)

/-- Python `str.partition(sep)`: split at the first occurrence of `sep`,
returning `(head, sep, tail)`; if `sep` does not occur, `(s, "", "")`. -/
def pyPartition (s sep : String) : String × String × String :=
  match findSplit sep.data (s.data.length + 1) s.data [] with
  | some (h, t) => (String.mk h, sep, String.mk t)
  | none => (s, "", "")

/-- Python `sub in s` substring containment, for nonempty `sub`
(every use site below passes a nonempty literal). -/
def pyContains (s sub : String) : Bool :=
  (findSplit sub.data (s.data.length + 1) s.data []).isSome

/-- Python `str.startswith`. -/
def pyStartsWith (s pre : String) : Bool := leadsWith pre.data s.data

/-- Python `str.endswith`. -/
def pyEndsWith (s suf : String) : Bool := leadsWith suf.data.reverse s.data.reverse

def isPySpace (c : Char) : Bool :=
  c = ' ' || c = '\t' || c = '\n' || c = '\r' || c = '\x0b' || c = '\x0c'

/-- Python `str.strip()`. -/
def pyStrip (s : String) : String :=
  String.mk (((s.data.dropWhile isPySpace).reverse.dropWhile isPySpace).reverse)

/-- Python `str.split()` with no argument: split on whitespace runs and drop
empty pieces. -/
def pySplitWs (s : String) : List String :=
  (splitOnLoop [' '] (s.data.length + 1)
      (s.data.map (fun c => if isPySpace c then ' ' else c)) []).map String.mk
    |>.filter (fun t => t ≠ "")

/-- Python `sep.join(parts)`. -/
def pyJoin (sep : String) : List String → String
  | [] => ""
  | [x] => x
  | x :: xs => x ++ sep ++ pyJoin sep xs

/-- Python `s.replace(old, new)` for nonempty `old`: split on `old` and
join the pieces with `new`. -/
def pyReplace (s old new : String) : String := pyJoin new (pySplitOn s old)

/-- Python `s[1:-1]`: drop the first and last character. -/
def pyInner (s : String) : String := String.mk (s.data.drop 1).dropLast

/-- ASCII lowercasing of one character (Python `str.lower` on the inputs
handled here, which are ASCII). -/
def lowerChar (c : Char) : Char :=
  if 'A' ≤ c && c ≤ 'Z' then Char.ofNat (c.toNat + 32) else c

/-- Python `str.lower()` (ASCII). -/
def pyLower (s : String) : String := String.mk (s.data.map lowerChar)

/-- Python dict assignment `d[k] = v`: overwrite the binding in place if the
key exists (keeping its position, as Python dicts do), else append. -/
def dictSet [BEq κ] (k : κ) (v : α) : List (κ × α) → List (κ × α)
  | [] => [(k, v)]
  | (k', v') :: rest => if k' == k then (k, v) :: rest else (k', v') :: dictSet k v rest

/-- Python `dict.pop(k, None)`: remove the binding of `k` (first occurrence),
returning it together with the remaining bindings in order. -/
def popAssoc (k : String) : List (String × α) → Option α × List (String × α)
  | [] => (none, [])
  | (k', v) :: rest =>
    if k' = k then (some v, rest)
    else
      let (r, l) := popAssoc k rest
      (r, (k', v) :: l)

/-! ## Field model (v2 schema)

Model of `modflow_devtools.dfn.schema.field.Field` / `FieldV2`: the attributes
exercised by the mapping pipeline (`name`, `type`, `shape`, `block`, `default`,
`description`, `children`).  The remaining metadata attributes (`longname`,
`optional`, `reader`, `valid`, `developmode`) are carried unchanged through
every code path modelled here, so they are omitted.  `default` values stay raw
text: in `MapV1To2.map_field` the source pops the absent `default_value` key
(the dataclass attribute is `default`), so `try_literal_eval` only ever sees
`None` and the raw `default` entry of `field_dict` survives into the v2 field.
-/

inductive F2 where
  | mk (name : String) (type : Option String) (shape : Option String)
      (block : Option String) (default : Option String)
      (description : Option String)
      (children : Option (List (String × F2)))

def F2.name : F2 → String
  | .mk n _ _ _ _ _ _ => n

def F2.type : F2 → Option String
  | .mk _ t _ _ _ _ _ => t

def F2.shape : F2 → Option String
  | .mk _ _ s _ _ _ _ => s

def F2.block : F2 → Option String
  | .mk _ _ _ b _ _ _ => b

def F2.default : F2 → Option String
  | .mk _ _ _ _ d _ _ => d

def F2.description : F2 → Option String
  | .mk _ _ _ _ _ d _ => d

def F2.children : F2 → Option (List (String × F2))
  | .mk _ _ _ _ _ _ c => c

/-- `dataclasses.replace(column, shape=s)`. -/
def F2.withShape (s : String) : F2 → F2
  | .mk n t _ b d de c => .mk n t (some s) b d de c

/-- `x or {}` for an optional children mapping. -/
def childList : Option (List (String × F2)) → List (String × F2)
  | none => []
  | some l => l

/-! ## Period block conversion (`MapV1To2.map_period_block`)

From `src/modflow_devtools/dfn/__init__.py`.  The new shape string is built
from the old one exactly as the source does: slice off the first and last
character, split on `","` (note: the pieces are not stripped, so `" maxbound"`
with a leading space is not recognised), prepend `nper` and, when a `cellid`
column was popped, `nnodes`, and drop pieces equal to `"maxbound"`.
-/

/-- The `new_dims` list computed per column:
`["nper"] (+ ["nnodes"] if cellid) (+ old dims except "maxbound" if shape truthy)`. -/
def periodColDims (cellidPresent : Bool) (shape : Option String) : List String :=
  let old : List String :=
    match shape with
    | none => []
    | some s => if s = "" then [] else pySplitOn (pyInner s) ","
  ["nper"] ++ (if cellidPresent then ["nnodes"] else []) ++ old.filter (fun d => d ≠ "maxbound")

/-- `f"({', '.join(new_dims)})"`. -/
def mkShapeStr (dims : List String) : String :=
  "(" ++ pyJoin ", " dims ++ ")"

/-- `MapV1To2.map_period_block`.  Returns `none` where Python raises:
`IndexError` on an empty block, the `assert len(fields) == 1` when the first
field is a recarray, and `StopIteration` when the recarray has no child. -/
def mapPeriodBlock (block : List (String × F2)) : Option (List (String × F2)) :=
  match block.head? with
  | none => none
  | some (_, f0) =>
    if f0.type == some "recarray" then
      if block.length ≠ 1 then none
      else
        match (childList f0.children).head? with
        | none => none
        | some (_, item) =>
          let (cellid, columns) := popAssoc "cellid" (childList item.children)
          some (columns.map fun p =>
            (p.1, p.2.withShape (mkShapeStr (periodColDims cellid.isSome p.2.shape))))
    else
      let (cellid, columns) := popAssoc "cellid" block
      some (columns.map fun p =>
        (p.1, p.2.withShape (mkShapeStr (periodColDims cellid.isSome p.2.shape))))

/-! ## Field resolution (`MapV1To2.map_field`)

From `src/modflow_devtools/dfn/__init__.py`.  A v1 field (`FieldV1`) carries
flat string attributes plus the `in_record` marker; the attributes not
inspected by `map_field` (`tagged`, `preserve_case`, `reader`, ...) are
omitted from the model (they are dropped by `FieldV2.from_dict` or by the
final `remap`).  Exceptions raised by the source are modelled as `MErr`
values: Python `ValueError`/`TypeError`/`IndexError`/`StopIteration` and
`AttributeError` (attribute access on `None`).  The recursion through sibling
composites is bounded by fuel; Python itself would not terminate on a cyclic
sibling graph.
-/

def SCALAR_TYPES : List String := ["keyword", "integer", "double precision", "string"]

structure F1 where
  name : String
  type : Option String := none
  shape : Option String := none
  block : Option String := none
  default : Option String := none
  description : Option String := none
  in_record : Bool := false
deriving DecidableEq

inductive MErr where
  /-- recursion bound exhausted (Python: unbounded recursion) -/
  | fuelOut
  /-- `ValueError(f"Missing list definition: {_type}")` -/
  | missingListDefinition (t : String)
  /-- `ValueError(f"Missing type for field: {first.name}")` -/
  | missingType (n : String)
  /-- `TypeError(f"Unsupported array type: {_type}")` -/
  | unsupportedArrayType (t : String)
  /-- `AttributeError`: method call on a `None` attribute -/
  | noneAttr
  /-- `IndexError`: `item_types[0]` with no matching sibling -/
  | indexOut
  /-- `StopIteration`: `next(iter(...))` on an empty collection -/
  | stopIter
  /-- `AssertionError` -/
  | assertFail
deriving DecidableEq

/-- A scalar type membership test as Python evaluates `t in SCALAR_TYPES`
(where `t` may be `None`, which is simply not a member). -/
def isScalarType : Option String → Bool
  | none => false
  | some s => SCALAR_TYPES.contains s

/-- `shape = None if shape == "" else shape`. -/
def normShape : Option String → Option String
  | none => none
  | some s => if s = "" then none else some s

/-- `MapV1To2.map_field` (equivalently the inner `_map_field`: the outer
function only rebuilds the same helpers).  `fields` is the component's
ordered field multimap, `dfn.fields.values(multi=True)`. -/
def mapField : Nat → List F1 → F1 → Except MErr F2
  | 0, _, _ => .error .fuelOut
  | fuel + 1, fields, f =>
    let _name := f.name
    let shape : Option String := normShape f.shape
    let block := f.block
    let default := f.default
    let description := f.description
    -- `_union_fields`, and the non-explicit children of `_row_field`
    let unionKids (names : List String) : Except MErr (List (String × F2)) :=
      fields.foldlM
        (fun acc g =>
          if names.contains g.name && g.in_record then
            (mapField fuel fields g).map (fun v => dictSet g.name v acc)
          else .ok acc) []
    -- `_record_fields`
    let recordKids (names : List String) : Except MErr (List (String × F2)) :=
      fields.foldlM
        (fun acc g =>
          if names.contains g.name && g.in_record then
            match g.type with
            | none => .error .noneAttr
            | some gt =>
              if pyStartsWith gt "record" then .ok acc
              else (mapField fuel fields g).map (fun v => dictSet g.name v acc)
          else .ok acc) []
    match f.type with
    | none => .error .noneAttr  -- `None.startswith` raises
    | some t =>
      if pyStartsWith t "recarray" then
        -- `_row_field`
        let item_names := (pySplitWs t).drop 1
        let item_types :=
          (fields.filter (fun g => item_names.contains g.name && g.in_record)).map F1.type
        -- implicit record branches, shared by the two fallthrough paths
        let implicitRow : Except MErr F2 :=
          if item_types.all isScalarType then
            -- implicit record with all scalar fields
            (recordKids item_names).bind fun kids =>
              match description with
              | none => .error .noneAttr
              | some d =>
                .ok (.mk _name (some "record") none block default
                  (some (pyReplace d "is the list of" "is the record of")) (some kids))
          else
            -- implicit record with composite fields
            (unionKids item_names).bind fun kids =>
              match kids.head? with
              | none => .error .stopIter
              | some (_, first) =>
                match first.type with
                | none => .error (.missingType first.name)
                | some ft =>
                  if ft = "" then .error (.missingType first.name)
                  else
                    let single := kids.length = 1
                    let item_type :=
                      if single && pyContains ft "keystring" then "keystring" else "record"
                    match description with
                    | none => .error .noneAttr
                    | some d =>
                      .ok (.mk (if single then first.name else _name) (some item_type)
                        none block default
                        (some (pyReplace d "is the list of" ("is the " ++ item_type ++ " of")))
                        (if single then first.children else some kids))
        let rowField : Except MErr F2 :=
          if item_names.length < 1 then .error (.missingListDefinition t)
          else if item_names.length = 1 then
            match item_types with
            | [] => .error .indexOut
            | none :: _ => .error .noneAttr
            | some ty0 :: _ =>
              if pyStartsWith ty0 "record" || pyStartsWith ty0 "keystring" then
                -- explicit record or keystring
                match (fields.filter (fun g => g.name == item_names.headI)).head? with
                | none => .error .stopIter
                | some g => mapField fuel fields g
              else implicitRow
          else implicitRow
        rowField.bind fun child =>
          .ok (.mk _name (some "recarray") shape block default description
            (some [(child.name, child)]))
      else if pyStartsWith t "keystring" then
        (unionKids ((pySplitWs t).drop 1)).bind fun kids =>
          .ok (.mk _name (some "keystring") shape block default description (some kids))
      else if pyStartsWith t "record" then
        (recordKids ((pySplitWs t).drop 1)).bind fun kids =>
          .ok (.mk _name (some "record") shape block default description (some kids))
      else if shape.isSome && !SCALAR_TYPES.contains t then
        .error (.unsupportedArrayType t)
      else
        .ok (.mk _name (some t) shape block default description none)

/-- `MapV1To2.map_blocks`: resolve every top-level (non-`in_record`) field,
group the results into blocks by their `block` attribute (consecutive groups,
as `itertools.groupby` does), convert the `period` block, and put it first.
The final `remap` dropping `in_record`/`tagged`/`preserve_case` is the
identity on this model, which does not carry those attributes. -/
def mapBlocks (fuel : Nat) (fields : List F1) :
    Except MErr (List (Option String × List (String × F2))) := do
  let top ← (fields.filter (fun f => !f.in_record)).foldlM
    (fun acc f => (mapField fuel fields f).map (fun v => dictSet f.name v acc)) []
  let grouped := (top.map Prod.snd).splitBy (fun a b => a.block == b.block)
  let block_dicts : List (Option String × List (String × F2)) :=
    grouped.foldl
      (fun acc grp =>
        match grp.head? with
        | none => acc
        | some g0 => dictSet g0.block (grp.foldl (fun a g => dictSet g.name g a) []) acc) []
  match List.lookup (some "period") block_dicts with
  | none => .ok block_dicts
  | some pb =>
    match mapPeriodBlock pb with
    | none => .error .assertFail
    | some pb' =>
      .ok ((some "period", pb') ::
        block_dicts.filter (fun p => p.1 ≠ some "period"))

/-! ## Field-level parser (`src/modflow_devtools/dfn/parse.py`, `parse_dfn`)

The in-progress field record and the result are ordered maps modelled as
association lists with Python-dict insert semantics (`dictSet`).  Errors are
the exceptions the source can raise while reading a line: an uncaught
`ast.literal_eval` failure on a REPLACE literal mapping, and `KeyError` (a
closed field record with no `name` attribute, a common entry without
`description`, or a nonempty mapping without a `{#1}` key). -/

abbrev Attrs := List (String × String)

inductive PErr where
  | literalEvalFail (s : String)
  | keyError (k : String)
deriving DecidableEq

structure PState where
  field : Attrs
  fields : List (String × Attrs)
  metadata : List String
deriving DecidableEq

def metaMarkers : List String := ["multi-package", "solution_package", "subpackage", "parent"]

/-- One iteration of the `for line in f` loop of `parse_dfn`.  `litEval` is
the external `ast.literal_eval` collaborator (`none` models it raising). -/
def parseDfnLine (litEval : String → Option Attrs) (common : List (String × Attrs))
    (st : PState) (rawLine : String) : Except PErr PState :=
  let line := pyStrip rawLine
  if pyStartsWith line "#" then
    let p1 := pyPartition line "flopy"
    let md1 := if p1.2.1 = "flopy" && metaMarkers.any (fun m => pyContains p1.2.2 m)
               then [pyStrip p1.2.2] else []
    let p2 := pyPartition line "package-type"
    let md2 := if p2.2.1 = "package-type" then ["package-type " ++ pyStrip p2.2.2] else []
    .ok { st with metadata := st.metadata ++ md1 ++ md2 }
  else if line = "" then
    if st.field ≠ [] then
      match List.lookup "name" st.field with
      | none => .error (.keyError "name")
      | some nm =>
        .ok { field := [], fields := st.fields ++ [(nm, st.field)], metadata := st.metadata }
    else .ok st
  else
    let kv := pyPartition line " "
    let key := if kv.1 = "default_value" then "default" else kv.1
    let value := kv.2.2
    let field1 := dictSet key value st.field
    if key = "description" then
      let descr0 := pyReplace (pyReplace (pyReplace value "\\" "") "``" "\x27") "\x27\x27" "\x27"
      let pr := pyPartition (pyStrip descr0) "REPLACE"
      if pr.2.1 ≠ "" then
        let ks := pyPartition (pyStrip pr.2.2) " "
        match litEval ks.2.2 with
        | none => .error (.literalEvalFail ks.2.2)
        | some subs =>
          match List.lookup ks.1 common with
          | none =>
            -- `warn(...)`: non-fatal, description kept as the cleaned text
            .ok { st with field := dictSet "description" descr0 field1 }
          | some cmmn =>
            match List.lookup "description" cmmn with
            | none => .error (.keyError "description")
            | some cdescr =>
              if subs ≠ [] then
                match List.lookup "\x7b#1\x7d" subs with
                | none => .error (.keyError "\x7b#1\x7d")
                | some sub1 =>
                  let d := pyReplace (pyReplace cdescr "\\" "") "\x7b#1\x7d" sub1
                  .ok { st with field := dictSet "description" d field1 }
              else .ok { st with field := dictSet "description" cdescr field1 }
      else .ok { st with field := dictSet "description" descr0 field1 }
    else .ok { st with field := field1 }

/-- End of `parse_dfn`: save the last in-progress field. -/
def parseDfnFinish (st : PState) : Except PErr (List (String × Attrs) × List String) :=
  if st.field ≠ [] then
    match List.lookup "name" st.field with
    | none => .error (.keyError "name")
    | some nm => .ok (st.fields ++ [(nm, st.field)], st.metadata)
  else .ok (st.fields, st.metadata)

/-- The line loop of `parse_dfn` from a given state. -/
def parseDfnFrom (litEval : String → Option Attrs) (common : List (String × Attrs))
    (st : PState) : List String → Except PErr (List (String × Attrs) × List String)
  | [] => parseDfnFinish st
  | l :: ls => (parseDfnLine litEval common st l).bind fun st' =>
      parseDfnFrom litEval common st' ls

/-- `parse_dfn`: fold the lines from the empty state, then save the last
in-progress field. -/
def parseDfn (litEval : String → Option Attrs) (common : List (String × Attrs))
    (lines : List String) : Except PErr (List (String × Attrs) × List String) :=
  parseDfnFrom litEval common ⟨[], [], []⟩ lines

/-- A concrete stand-in for the external collaborator `ast.literal_eval` as
applied to REPLACE literal mappings: it accepts the empty dict literal and
single-entry dicts of single-quoted strings, and returns `none` (modelling an
uncaught `ValueError`/`SyntaxError`) on anything else.  The real function
accepts more literal forms; the theorems below only need that well-formed
mappings evaluate and that malformed text raises. -/
def miniLitEval (s : String) : Option Attrs :=
  let t := pyStrip s
  if t = "\x7b\x7d" then some []
  else if pyStartsWith t "\x7b" && pyEndsWith t "\x7d" then
    match pySplitOn (pyStrip (pyInner t)) "\x27" with
    | ["", k, sep, v, ""] => if pyStrip sep = ":" then some [(k, v)] else none
    | _ => none
  else none

/-! ## Input transformer (`src/modflow_devtools/codec.py`) -/

/-- Exact-decimal model of a number produced by `MF6Transformer.NUMBER`:
a float is represented by the exact rational value of its decimal literal
(each claim compares two parses of the same literal, so IEEE rounding,
applied identically to both sides, cancels). -/
inductive PyNum where
  | int (z : ℤ)
  | float (num : ℤ) (den : ℕ)
deriving DecidableEq

/-- The exact rational value of a parsed float. -/
def floatVal (num : ℤ) (den : ℕ) : ℚ := (num : ℚ) / (den : ℚ)

/-- Parse a nonempty all-digit run, returning its value and length. -/
def parseDigits (cs : List Char) : Option (ℕ × ℕ) :=
  if cs = [] then none
  else cs.foldlM (fun (acc : ℕ × ℕ) c =>
    if c.isDigit then some (acc.1 * 10 + (c.toNat - 48), acc.2 + 1) else none) (0, 0)

/-- Python `int(s)` on a decimal string: optional sign and digits
(surrounding whitespace tolerated; underscore grouping not modelled). -/
def pyIntOfString (s : String) : Option ℤ :=
  match (pyStrip s).data with
  | '+' :: rest => (parseDigits rest).map (fun p => (p.1 : ℤ))
  | '-' :: rest => (parseDigits rest).map (fun p => -(p.1 : ℤ))
  | cs => (parseDigits cs).map (fun p => (p.1 : ℤ))

/-- Python `float(s)` on a decimal literal `[sign] digits [. digits] [(e|E)
[sign] digits]`, as an exact decimal fraction `(numerator, power-of-ten
denominator)` (`inf`/`nan`/underscores not modelled).  The rational value is
recovered by `floatVal`; keeping the fraction unreduced keeps the parser a
kernel-computable function. -/
def pyFloatOfString (s : String) : Option (ℤ × ℕ) :=
  let t := pyStrip s
  let signBody : ℤ × List Char :=
    match t.data with
    | '+' :: rest => (1, rest)
    | '-' :: rest => (-1, rest)
    | cs => (1, cs)
  let sign := signBody.1
  let body := signBody.2
  let mantCs := body.takeWhile (fun c => c ≠ 'e' && c ≠ 'E')
  let expProvided := body.drop mantCs.length
  let expVal : Option ℤ :=
    match expProvided with
    | [] => some 0
    | _ :: expCs =>
      match expCs with
      | '+' :: ds => (parseDigits ds).map (fun p => (p.1 : ℤ))
      | '-' :: ds => (parseDigits ds).map (fun p => -(p.1 : ℤ))
      | ds => (parseDigits ds).map (fun p => (p.1 : ℤ))
  let intCs := mantCs.takeWhile (fun c => c ≠ '.')
  let fracRest := mantCs.drop intCs.length
  -- mantissa as (value, power-of-ten denominator exponent)
  let mantVal : Option (ℕ × ℕ) :=
    match fracRest with
    | [] => (parseDigits intCs).map (fun p => (p.1, 0))
    | _ :: fracCs =>
      if intCs = [] && fracCs = [] then none
      else
        match (if intCs = [] then some ((0 : ℕ), (0 : ℕ)) else parseDigits intCs),
              (if fracCs = [] then some ((0 : ℕ), (0 : ℕ)) else parseDigits fracCs) with
        | some ip, some fp => some (ip.1 * 10 ^ fp.2 + fp.1, fp.2)
        | _, _ => none
  match mantVal, expVal with
  | some m, some (Int.ofNat e) => some (sign * (m.1 * 10 ^ e : ℕ), 10 ^ m.2)
  | some m, some (Int.negSucc e) => some (sign * (m.1 : ℕ), 10 ^ m.2 * 10 ^ (e + 1))
  | _, _ => .none

/-- `MF6Transformer.NUMBER`: an item with a decimal point or exponent marker
becomes a float, otherwise an integer; if `int()` rejects it, `float()` is
retried (its failure, like a float-branch failure, propagates uncaught). -/
def numberTransform (s : String) : Except Unit PyNum :=
  if pyContains s "." || pyContains (pyLower s) "e" then
    match pyFloatOfString s with
    | some q => .ok (.float q.1 q.2)
    | none => .error ()
  else
    match pyIntOfString s with
    | some z => .ok (.int z)
    | none =>
      match pyFloatOfString s with
      | some q => .ok (.float q.1 q.2)
      | none => .error ()

/-- A transformed block-content entry: a raw line of items, or a structured
record with positionally bound fields and an overflow sequence (the source's
dicts tagged `'type': 'line' / 'record'`; an absent `overflow` key is
modelled as `[]`). -/
inductive REntry (α : Type) where
  | line (items : List α)
  | record (fields : List (String × α)) (overflow : List α)
deriving DecidableEq

/-- `MF6Transformer._structure_recarray_data`: bind each line's items
positionally to the known column names when there are enough items, keeping
extra items as overflow; keep shorter lines (and non-line entries) as is. -/
def structureRecarrayData (fieldNames : List String) (content : List (REntry α)) :
    List (REntry α) :=
  content.map fun e =>
    match e with
    | .line items =>
      if fieldNames.length ≤ items.length then
        .record (fieldNames.zip items)
          (if fieldNames.length < items.length then items.drop fieldNames.length else [])
      else .line items
    | other => other

/-! ## Legacy hierarchy inference (`src/modflow_devtools/dfn.py`, `infer_tree`)

The legacy `Dfn` is a `TypedDict`; only `name` and `parent` are read by
`infer_tree`, so the model keeps those.  The recursion of `add_children` is
bounded by fuel (`len(dfns) + 1` suffices for every acyclic input; Python
recurses unboundedly on a reachable parent cycle). -/

structure DfnD where
  name : String
  parent : Option String := none
deriving DecidableEq

inductive TreeD where
  | mk (dfn : DfnD) (children : List (String × TreeD))

inductive HErrD where
  /-- `ValueError(f"Expected exactly one root component, found {len(roots)}: {roots}")` -/
  | rootCount (n : ℕ) (roots : List String)
  /-- `ValueError(f"Root component must be named 'sim', found '{root_name}'")` -/
  | rootName (r : String)
  | fuelOut
  | keyError (k : String)
deriving DecidableEq

/-- Python falsiness of `dfn.get("parent")`: absent or the empty string. -/
def falsyParent : Option String → Bool
  | none => true
  | some s => s = ""

def addChildren (dfns : List (String × DfnD)) : ℕ → String → Except HErrD TreeD
  | 0, _ => .error .fuelOut
  | fuel + 1, nodeName =>
    match List.lookup nodeName dfns with
    | none => .error (.keyError nodeName)
    | some node =>
      let childNames := (dfns.filter (fun p => p.2.parent == some nodeName)).map Prod.fst
      (childNames.mapM (fun c => (addChildren dfns fuel c).map (fun t => (c, t)))).map
        (fun kids => .mk node kids)

/-- `roots = [name for name, dfn in dfns.items() if not dfn.get("parent")]`. -/
def rootsD (dfns : List (String × DfnD)) : List String :=
  (dfns.filter (fun p => falsyParent p.2.parent)).map Prod.fst

/-- `infer_tree`: check the single-root invariant and the root's name, then
assemble the tree. -/
def inferTree (dfns : List (String × DfnD)) : Except HErrD (String × TreeD) :=
  let roots := rootsD dfns
  if roots.length ≠ 1 then .error (.rootCount roots.length roots)
  else
    match roots.head? with
    | none => .error (.rootCount roots.length roots)
    | some root_name =>
      if root_name ≠ "sim" then .error (.rootName root_name)
      else (addChildren dfns (dfns.length + 1) root_name).map (fun t => (root_name, t))

/-! ## Hierarchy assembly (`src/modflow_devtools/dfn/__init__.py`:
`to_tree`, `to_flat`)

The dataclass `Dfn`, with `blocks` carried as an opaque payload of v2 fields.
`schema_version` is the string rendering of the `Version`. -/

inductive DfnN where
  | mk (schema_version : String) (name : String) (parent : Option String)
      (advanced : Bool) (multi : Bool) (ref : Option (String × String))
      (blocks : Option (List (String × List (String × F2))))
      (children : Option (List (String × DfnN)))

def DfnN.schema_version : DfnN → String
  | .mk v _ _ _ _ _ _ _ => v

def DfnN.name : DfnN → String
  | .mk _ n _ _ _ _ _ _ => n

def DfnN.parent : DfnN → Option String
  | .mk _ _ p _ _ _ _ _ => p

def DfnN.children : DfnN → Option (List (String × DfnN))
  | .mk _ _ _ _ _ _ _ c => c

def DfnN.withParent (p : Option String) : DfnN → DfnN
  | .mk v n _ a m r b c => .mk v n p a m r b c

def DfnN.withChildren (c : Option (List (String × DfnN))) : DfnN → DfnN
  | .mk v n p a m r b _ => .mk v n p a m r b c

def childListN : Option (List (String × DfnN)) → List (String × DfnN)
  | none => []
  | some l => l

/-- `to_tree.set_parent`: name-based parent inference, applied to every
component.  The source passes the dataclass through
`asdict` / `remap(drop_none_or_empty)` / `Dfn(**...)`; on this model that
round-trip only normalises an empty-string `parent` to `None` (attribute
absence and `None` already coincide in the `Option` representation). -/
def setParent (d : DfnN) : DfnN :=
  let d' :=
    if d.name = "sim-nam" then d
    else if pyEndsWith d.name "-nam" then d.withParent (some "sim-nam")
    else if pyStartsWith d.name "exg-" || pyStartsWith d.name "sln-"
         || pyStartsWith d.name "utl-" then d.withParent (some "sim-nam")
    else if pyContains d.name "-" then
      d.withParent (some (((pySplitOn d.name "-").headI) ++ "-nam"))
    else d
  if d'.parent == some "" then d'.withParent none else d'

inductive HErrN where
  /-- `NotImplementedError` for v1 schemas -/
  | notImplementedV1
  /-- `ValueError(f"Unsupported schema version: ...")` -/
  | badVersion (v : String)
  /-- `ValueError(f"Expected one root component, found {nroots}")` -/
  | oneRoot (n : ℕ)
  | keyError (k : String)
  | fuelOut
deriving DecidableEq

/-- `to_tree._build_tree`: attach, under each node, every component whose
`parent` equals the node's name; recursion bounded by fuel. -/
def buildTree (dfns : List (String × DfnN)) : ℕ → String → Except HErrN DfnN
  | 0, _ => .error .fuelOut
  | fuel + 1, nodeName =>
    match List.lookup nodeName dfns with
    | none => .error (.keyError nodeName)
    | some node =>
      let childNames := (dfns.filter (fun p => p.2.parent == some nodeName)).map Prod.fst
      if childNames.isEmpty then .ok node
      else
        (childNames.mapM (fun c => (buildTree dfns fuel c).map (fun t => (c, t)))).map
          (fun kids => node.withChildren (some kids))

/-- `{name: set_parent(dfn) for name, dfn in dfns.items()}`. -/
def inferParents (dfns : List (String × DfnN)) : List (String × DfnN) :=
  dfns.map (fun p => (p.1, setParent p.2))

/-- `roots = {name: dfn for name, dfn in dfns.items() if dfn.parent is None}`
(after parent inference). -/
def rootsN (dfns : List (String × DfnN)) : List (String × DfnN) :=
  (inferParents dfns).filter (fun p => p.2.parent == none)

/-- `to_tree`: infer parents, dispatch on the first component's schema
version, enforce the single-root count, and build the tree from the root.
There is no root-name check on this path. -/
def toTree (dfns0 : List (String × DfnN)) : Except HErrN DfnN :=
  let dfns := inferParents dfns0
  let schemaVer := match dfns.head? with
    | some p => p.2.schema_version
    | none => "1"
  if schemaVer = "1" then .error .notImplementedV1
  else if schemaVer = "2" then
    let roots := rootsN dfns0
    if roots.length ≠ 1 then .error (.oneRoot roots.length)
    else
      match roots.head? with
      | none => .error (.oneRoot roots.length)
      | some r => buildTree dfns (dfns.length + 1) r.1
  else .error (.badVersion schemaVer)

/-- `to_flat._flatten`: emit the node with `children` cleared, then merge each
child's flattening into the map with Python `dict.update` semantics. -/
def toFlat : DfnN → List (String × DfnN)
  | .mk v n p a m r b c =>
    (((childListN c).attach.map (fun x => toFlat x.1.2)).flatten).foldl
      (fun acc kv => dictSet kv.1 kv.2 acc) [(n, .mk v n p a m r b none)]
decreasing_by
  rename_i n p a m r b c
  have hx := x.2
  have h1 : sizeOf x.1 < sizeOf (childListN c) := List.sizeOf_lt_of_mem hx
  have h2 : sizeOf x.1.2 < sizeOf x.1 := by
    obtain ⟨s, d⟩ := x.1
    simp
  cases c with
  | none => simp [childListN] at h1; omega
  | some l =>
    simp only [childListN] at h1
    simp
    omega


/-- Ancestor chains in a flat component map: `ChainUp dfns n j k` holds when
following `parent` pointers `n` times from component `j` reaches component
`k`.  Used to state which components `_build_tree` can reach from the root. -/
inductive ChainUp (dfns : List (String × DfnN)) : ℕ → String → String → Prop where
  | refl (k : String) : ChainUp dfns 0 k k
  | step (j p k : String) (n : ℕ) (d : DfnN) :
      List.lookup j dfns = some d → d.parent = some p →
      ChainUp dfns n p k → ChainUp dfns (n + 1) j k

instance : Inhabited DfnN := ⟨.mk "" "" none false false none none none⟩

def rtC4 : String × DfnN := ("sim-nam", .mk "2" "sim-nam" none false false none none none)

def exDfnsC4 : List (String × DfnN) :=
  [rtC4,
   ("gwf-nam", .mk "2" "gwf-nam" (some "sim-nam") false false none none none),
   ("gwf-dis", .mk "2" "gwf-dis" (some "gwf-nam") false false none none none)]

def depthC4 : String → ℕ :=
  fun s => if s = "sim-nam" then 0 else if s = "gwf-nam" then 1 else 2

def cexDfnsC4 : List (String × DfnN) :=
  [("sim-nam", .mk "2" "sim-nam" none false false none none none),
   ("utl-tvs", .mk "2" "utl-tvs" (some "gwf-nam") false false none none none)]

/-! ## Helper lemmas -/

theorem lookup_map_withShape (f : F2 → F2) (k : String) (l : List (String × F2)) :
    List.lookup k (l.map fun p => (p.1, f p.2)) = (List.lookup k l).map f := by
  induction l with
  | nil => rfl
  | cons hd tl ih =>
    by_cases h : k == hd.1 <;> simp [List.lookup, h, ih]

theorem F2.type_withShape (s : String) (f : F2) : (f.withShape s).type = f.type := by
  cases f; rfl

theorem F2.shape_withShape (s : String) (f : F2) : (f.withShape s).shape = some s := by
  cases f; rfl

theorem foldlM_skip (l : List F1) (acc : List (String × F2)) :
    List.foldlM (m := Except MErr) (fun acc _ => .ok acc) acc l = .ok acc := by
  induction l generalizing acc with
  | nil => rfl
  | cons hd tl ih => exact ih acc

theorem DfnN.name_withParent (p : Option String) (d : DfnN) : (d.withParent p).name = d.name := by
  cases d; rfl

theorem DfnN.parent_withParent (p : Option String) (d : DfnN) : (d.withParent p).parent = p := by
  cases d; rfl

theorem some_append_nam_ne_some_empty (s : String) :
    ((some (s ++ "-nam") : Option String) == some "") = false := by
  rw [beq_eq_false_iff_ne]
  intro h
  have h2 : s ++ "-nam" = "" := by injection h
  have h3 : (s ++ "-nam").data = ("" : String).data := congrArg String.data h2
  rw [String.data_append] at h3
  simp at h3

/-! ## Claim theorems -/

/-- C1: For a v1 period block holding a single recarray (list) field whose row
type includes a `cellid` column and a data column `q` with original shape
`(maxbound)`, schema migration to v2 drops the list wrapper and the `cellid`
column and gives `q` a new shape that starts with `nper`, then has `nnodes`
(because `cellid` was present), and contains no `maxbound` dimension. -/
theorem mapPeriodBlock_recarray_drops_cellid_and_maxbound
    (rn iname : String) (rf item c q : F2) (rest : List (String × F2))
    (hty : rf.type = some "recarray")
    (hch : (childList rf.children).head? = some (iname, item))
    (hcols : popAssoc "cellid" (childList item.children) = (some c, rest))
    (hq : List.lookup "q" rest = some q)
    (hqs : q.shape = some "(maxbound)") :
    mapPeriodBlock [(rn, rf)]
      = some (rest.map fun p => (p.1, p.2.withShape (mkShapeStr (periodColDims true p.2.shape))))
    ∧ List.lookup "q" (rest.map fun p => (p.1, p.2.withShape (mkShapeStr (periodColDims true p.2.shape))))
      = some (q.withShape "(nper, nnodes)")
    ∧ periodColDims true q.shape = ["nper", "nnodes"]
    ∧ (periodColDims true q.shape).head? = some "nper"
    ∧ "nnodes" ∈ periodColDims true q.shape
    ∧ "maxbound" ∉ periodColDims true q.shape := by
  have hdims : periodColDims true q.shape = ["nper", "nnodes"] := by rw [hqs]; decide
  refine ⟨?_, ?_, hdims, by rw [hdims]; rfl, by rw [hdims]; decide, by rw [hdims]; decide⟩
  · simp only [mapPeriodBlock, List.head?_cons, hty, hch, hcols]
    simp
  · rw [lookup_map_withShape (fun x => x.withShape (mkShapeStr (periodColDims true x.shape))), hq]
    simp only [Option.map]
    rw [hdims, show mkShapeStr ["nper", "nnodes"] = "(nper, nnodes)" from rfl]

theorem mapPeriodBlock_recarray_drops_cellid_and_maxbound_witness :
    mapPeriodBlock
      [("spd", F2.mk "spd" (some "recarray") none (some "period") none none
        (some [("spd", F2.mk "spd" (some "record") none (some "period") none none
          (some [("cellid", F2.mk "cellid" (some "integer") (some "(ncelldim)") (some "period") none none none),
                 ("q", F2.mk "q" (some "double precision") (some "(maxbound)") (some "period") none none none)]))]))]
      = some [("q", F2.mk "q" (some "double precision") (some "(nper, nnodes)") (some "period") none none none)]
    ∧ "maxbound" ∉ periodColDims true (some "(maxbound)") := by
  have h := mapPeriodBlock_recarray_drops_cellid_and_maxbound "spd" "spd"
    (F2.mk "spd" (some "recarray") none (some "period") none none
      (some [("spd", F2.mk "spd" (some "record") none (some "period") none none
        (some [("cellid", F2.mk "cellid" (some "integer") (some "(ncelldim)") (some "period") none none none),
               ("q", F2.mk "q" (some "double precision") (some "(maxbound)") (some "period") none none none)]))]))
    (F2.mk "spd" (some "record") none (some "period") none none
      (some [("cellid", F2.mk "cellid" (some "integer") (some "(ncelldim)") (some "period") none none none),
             ("q", F2.mk "q" (some "double precision") (some "(maxbound)") (some "period") none none none)]))
    (F2.mk "cellid" (some "integer") (some "(ncelldim)") (some "period") none none none)
    (F2.mk "q" (some "double precision") (some "(maxbound)") (some "period") none none none)
    [("q", F2.mk "q" (some "double precision") (some "(maxbound)") (some "period") none none none)]
    rfl rfl rfl rfl rfl
  exact ⟨h.1, h.2.2.2.2.2⟩

/-- C2 (amended): Applied to a period block with no list-typed field, the
conversion does not merely strip `maxbound`: it rebuilds each column's shape,
prepending `nper` (and `nnodes` when a `cellid` column is present) to the old
dimensions minus `maxbound`.  Re-running it on its own output therefore
prepends `nper` again, so the conversion is not idempotent. -/
theorem mapPeriodBlock_columnar_prepends_nper (n : String) (c : F2)
    (hn : n ≠ "cellid") (hty : c.type ≠ some "recarray") (hs : c.shape = none) :
    mapPeriodBlock [(n, c)] = some [(n, c.withShape "(nper)")]
    ∧ mapPeriodBlock [(n, c.withShape "(nper)")]
      = some [(n, (c.withShape "(nper)").withShape "(nper, nper)")] := by
  have hb : (c.type == some "recarray") = false := by
    simp [hty]
  constructor
  · simp only [mapPeriodBlock, List.head?_cons, hb, Bool.false_eq_true, if_false,
      popAssoc, if_neg hn]
    simp [hs]
    rw [show mkShapeStr (periodColDims false none) = "(nper)" from rfl]
  · simp only [mapPeriodBlock, List.head?_cons, F2.type_withShape, hb, Bool.false_eq_true,
      if_false, popAssoc, if_neg hn]
    simp [F2.shape_withShape]
    rw [show mkShapeStr (periodColDims false (some "(nper)")) = "(nper, nper)" from rfl]

/-- C2 (counterexample): the period-block conversion applied to an
already-columnar block is not a pass-through, and re-running it on its own
output is not a no-op: a `q` column with no shape first gets shape `(nper)`,
and a second application turns that into `(nper, nper)`. -/
theorem mapPeriodBlock_columnar_not_noop_cex :
    mapPeriodBlock [("q", F2.mk "q" (some "double precision") none (some "period") none none none)]
      = some [("q", F2.mk "q" (some "double precision") (some "(nper)") (some "period") none none none)]
    ∧ mapPeriodBlock [("q", F2.mk "q" (some "double precision") (some "(nper)") (some "period") none none none)]
      ≠ some [("q", F2.mk "q" (some "double precision") (some "(nper)") (some "period") none none none)] := by
  refine ⟨by rfl, ?_⟩
  intro h
  exact absurd (congrArg (fun r => r.map (fun l => l.map (fun p => p.2.shape))) h) (by decide)

theorem mapPeriodBlock_columnar_prepends_nper_witness :
    mapPeriodBlock [("w", F2.mk "w" (some "integer") none (some "period") none none none)]
      = some [("w", (F2.mk "w" (some "integer") none (some "period") none none none).withShape "(nper)")]
    ∧ mapPeriodBlock [("w", (F2.mk "w" (some "integer") none (some "period") none none none).withShape "(nper)")]
      = some [("w", ((F2.mk "w" (some "integer") none (some "period") none none none).withShape "(nper)").withShape "(nper, nper)")] :=
  mapPeriodBlock_columnar_prepends_nper "w"
    (F2.mk "w" (some "integer") none (some "period") none none none)
    (by decide) (by decide) rfl

/-- C3 (amended): Both hierarchy assemblers fail when the number of parentless
components differs from one, reporting the offending count (and, in the legacy
`infer_tree`, the offending names); the root-name check exists only in the
legacy `infer_tree` (root must be `"sim"`), while `to_tree` accepts a single
root of any name. -/
theorem hierarchy_root_invariant_checks (dfnsD : List (String × DfnD))
    (dfnsN : List (String × DfnN)) (r : String) (p0 : String × DfnN) :
    ((rootsD dfnsD).length ≠ 1 →
      inferTree dfnsD = .error (.rootCount (rootsD dfnsD).length (rootsD dfnsD)))
    ∧ (rootsD dfnsD = [r] → r ≠ "sim" → inferTree dfnsD = .error (.rootName r))
    ∧ ((inferParents dfnsN).head? = some p0 → p0.2.schema_version = "2" →
        (rootsN dfnsN).length ≠ 1 → toTree dfnsN = .error (.oneRoot (rootsN dfnsN).length)) := by
  refine ⟨fun h => ?_, fun hroot hname => ?_, fun hhead hver hcount => ?_⟩
  · simp [inferTree, h]
  · simp [inferTree, hroot, hname]
  · simp [toTree, hhead, hver, hcount]

/-- C3 (counterexample): `to_tree` does not enforce the designated root name:
a flat spec whose single parentless component is named `"foo"` (not the
designated root `"sim-nam"`) is assembled without error. -/
theorem toTree_accepts_wrong_root_name_cex :
    toTree [("foo", DfnN.mk "2" "foo" none false false none none none)]
      = .ok (DfnN.mk "2" "foo" none false false none none none) := by rfl

theorem hierarchy_root_invariant_checks_witness :
    inferTree [("a", { name := "a" }), ("b", { name := "b" })]
      = .error (.rootCount 2 ["a", "b"])
    ∧ inferTree [("nota", { name := "nota" })] = .error (.rootName "nota")
    ∧ toTree [("x", DfnN.mk "2" "x" none false false none none none),
              ("y", DfnN.mk "2" "y" none false false none none none)]
      = .error (.oneRoot 2) := by
  refine ⟨?_, ?_, ?_⟩
  · exact (hierarchy_root_invariant_checks [("a", { name := "a" }), ("b", { name := "b" })]
      [] "z" ("z", DfnN.mk "" "" none false false none none none)).1 (by decide)
  · exact (hierarchy_root_invariant_checks [("nota", { name := "nota" })]
      [] "nota" ("z", DfnN.mk "" "" none false false none none none)).2.1 (by decide) (by decide)
  · exact (hierarchy_root_invariant_checks []
      [("x", DfnN.mk "2" "x" none false false none none none),
       ("y", DfnN.mk "2" "y" none false false none none none)] "z"
      ("x", DfnN.mk "2" "x" none false false none none none)).2.2 rfl rfl (by decide)

/-- C5 (amended): Only a `recarray` descriptor can fail over its named
entries: with zero names it raises `ValueError` ("Missing list definition"),
and with one name matching zero `in_record` siblings it raises `IndexError`;
`keystring` and `record` descriptors naming zero matching siblings do not
fail — they resolve to composite fields with empty children. -/
theorem composite_zero_sibling_resolution (fuel : ℕ) (fields : List F1) (f : F1)
    (hnx : ∀ g ∈ fields, ¬(g.name = "x" ∧ g.in_record = true)) :
    (f.type = some "recarray" →
      mapField (fuel + 1) fields f = .error (.missingListDefinition "recarray"))
    ∧ (f.type = some "recarray x" → mapField (fuel + 1) fields f = .error .indexOut)
    ∧ (f.type = some "keystring" → mapField (fuel + 1) fields f
        = .ok (.mk f.name (some "keystring") (normShape f.shape) f.block f.default
            f.description (some [])))
    ∧ (f.type = some "record" → mapField (fuel + 1) fields f
        = .ok (.mk f.name (some "record") (normShape f.shape) f.block f.default
            f.description (some []))) := by
  refine ⟨fun ht => ?_, fun ht => ?_, fun ht => ?_, fun ht => ?_⟩
  · simp [mapField, ht, Except.bind, show pySplitWs "recarray" = ["recarray"] from rfl,
      show pyStartsWith "recarray" "recarray" = true from rfl]
  · simp [mapField, ht, show pySplitWs "recarray x" = ["recarray", "x"] from rfl,
      show pyStartsWith "recarray x" "recarray" = true from rfl]
    have hfil : List.filter (fun g => decide (g.name = "x") && g.in_record) fields = [] := by
      rw [List.filter_eq_nil_iff]
      intro g hg
      have := hnx g hg
      simp_all
    rw [hfil]
    simp [Except.bind]
  · simp [mapField, ht, foldlM_skip, Except.bind, show pySplitWs "keystring" = ["keystring"] from rfl,
      show pyStartsWith "keystring" "recarray" = false from rfl,
      show pyStartsWith "keystring" "keystring" = true from rfl]
  · simp [mapField, ht, foldlM_skip, Except.bind, show pySplitWs "record" = ["record"] from rfl,
      show pyStartsWith "record" "recarray" = false from rfl,
      show pyStartsWith "record" "keystring" = false from rfl,
      show pyStartsWith "record" "record" = true from rfl]

/-- C5 (counterexample): a `keystring` descriptor naming zero siblings (and
likewise a `record` descriptor) resolves successfully to a field with empty
children instead of failing fatally. -/
theorem keystring_record_empty_resolve_cex :
    mapField 1 [] { name := "ks", type := some "keystring", block := some "options" }
      = .ok (F2.mk "ks" (some "keystring") none (some "options") none none (some []))
    ∧ mapField 1 [] { name := "r", type := some "record", block := some "options" }
      = .ok (F2.mk "r" (some "record") none (some "options") none none (some [])) := by
  exact ⟨by rfl, by rfl⟩

theorem composite_zero_sibling_resolution_witness :
    mapField 1 [] { name := "ra", type := some "recarray" }
      = .error (.missingListDefinition "recarray")
    ∧ mapField 1 [] { name := "ra", type := some "recarray x" } = .error .indexOut
    ∧ mapField 1 [] { name := "u", type := some "keystring" }
      = .ok (F2.mk "u" (some "keystring") none none none none (some []))
    ∧ mapField 1 [] { name := "v", type := some "record" }
      = .ok (F2.mk "v" (some "record") none none none none (some [])) := by
  refine ⟨?_, ?_, ?_, ?_⟩
  · exact (composite_zero_sibling_resolution 0 [] { name := "ra", type := some "recarray" }
      (by simp)).1 rfl
  · exact (composite_zero_sibling_resolution 0 [] { name := "ra", type := some "recarray x" }
      (by simp)).2.1 rfl
  · exact (composite_zero_sibling_resolution 0 [] { name := "u", type := some "keystring" }
      (by simp)).2.2.1 rfl
  · exact (composite_zero_sibling_resolution 0 [] { name := "v", type := some "record" }
      (by simp)).2.2.2 rfl

/-- C6: During field resolution, a non-composite field (type not beginning
with `recarray`, `keystring` or `record`) with a `shape` present and a type
outside the four scalar kinds makes resolution fail with `TypeError`
("Unsupported array type"), and the error aborts resolution of the enclosing
component (`map_blocks`); a scalar-typed field with a shape resolves
successfully, keeping its shape. -/
theorem mapField_shape_scalar_check (fuel : ℕ) (fields : List F1) (f : F1) (t s : String)
    (ht : f.type = some t) (hs : f.shape = some s) (hs' : s ≠ "")
    (h1 : pyStartsWith t "recarray" = false) (h2 : pyStartsWith t "keystring" = false)
    (h3 : pyStartsWith t "record" = false) :
    (SCALAR_TYPES.contains t = false →
      mapField (fuel + 1) fields f = .error (.unsupportedArrayType t)
      ∧ (f.in_record = false → mapBlocks (fuel + 1) [f] = .error (.unsupportedArrayType t)))
    ∧ (SCALAR_TYPES.contains t = true →
      mapField (fuel + 1) fields f
        = .ok (.mk f.name (some t) (some s) f.block f.default f.description none)) := by
  have hns : normShape f.shape = some s := by
    rw [hs]; simp [normShape, hs']
  refine ⟨fun hsc => ⟨?_, fun hir => ?_⟩, fun hsc => ?_⟩
  · have hmem : t ∉ SCALAR_TYPES := by
      intro hm
      rw [show SCALAR_TYPES.contains t = SCALAR_TYPES.elem t from rfl,
        List.elem_eq_true_of_mem hm] at hsc
      cases hsc
    simp [mapField, ht, h1, h2, h3, hns, hmem]
  · have hmem : t ∉ SCALAR_TYPES := by
      intro hm
      rw [show SCALAR_TYPES.contains t = SCALAR_TYPES.elem t from rfl,
        List.elem_eq_true_of_mem hm] at hsc
      cases hsc
    have herr : mapField (fuel + 1) [f] f = .error (.unsupportedArrayType t) := by
      simp [mapField, ht, h1, h2, h3, hns, hmem]
    simp [mapBlocks, hir, herr, List.foldlM, Except.bind, Except.map]
    rfl
  · have hmem : t ∈ SCALAR_TYPES := List.mem_of_elem_eq_true hsc
    simp [mapField, ht, h1, h2, h3, hns, hmem]

theorem mapField_shape_scalar_check_witness :
    mapField 1 [] { name := "arr", type := some "charstar8", shape := some "(n)" }
      = .error (.unsupportedArrayType "charstar8")
    ∧ mapBlocks 1 [{ name := "arr", type := some "charstar8", shape := some "(n)" }]
      = .error (.unsupportedArrayType "charstar8")
    ∧ mapField 1 []
        { name := "arr2", type := some "integer", shape := some "(n)", block := some "griddata" }
      = .ok (F2.mk "arr2" (some "integer") (some "(n)") (some "griddata") none none none) := by
  refine ⟨?_, ?_, ?_⟩
  · exact ((mapField_shape_scalar_check 0 []
      { name := "arr", type := some "charstar8", shape := some "(n)" } "charstar8" "(n)"
      rfl rfl (by decide) (by decide) (by decide) (by decide)).1 (by decide)).1
  · exact ((mapField_shape_scalar_check 0 []
      { name := "arr", type := some "charstar8", shape := some "(n)" } "charstar8" "(n)"
      rfl rfl (by decide) (by decide) (by decide) (by decide)).1 (by decide)).2 rfl
  · exact (mapField_shape_scalar_check 0 []
      { name := "arr2", type := some "integer", shape := some "(n)", block := some "griddata" }
      "integer" "(n)" rfl rfl (by decide) (by decide) (by decide) (by decide)).2 (by decide)

/-- C7 (amended): The field-level parser normally rejects no line, and a
REPLACE directive naming an absent common key is non-fatal (a warning; the
description is kept as the cleaned, unsubstituted text) — but a REPLACE
directive whose literal mapping fails to evaluate is fatal: the
`ast.literal_eval` error propagates uncaught. -/
theorem parseDfn_replace_malformed_fatal (litEval : String → Option Attrs) (subs : Attrs)
    (hok : litEval "\x7b\x27\x7b#1\x7d\x27: \x27x\x27\x7d" = some subs)
    (hbad : litEval "\x7bbad" = none) :
    parseDfn litEval [] ["name q", "description REPLACE ckey \x7bbad"]
      = .error (.literalEvalFail "\x7bbad")
    ∧ parseDfn litEval [] ["name q",
        "description REPLACE ckey \x7b\x27\x7b#1\x7d\x27: \x27x\x27\x7d", ""]
      = .ok ([("q", [("name", "q"),
          ("description", "REPLACE ckey \x7b\x27\x7b#1\x7d\x27: \x27x\x27\x7d")])], []) := by
  constructor
  · show (parseDfnLine litEval [] ⟨[("name", "q")], [], []⟩ "description REPLACE ckey \x7bbad").bind
        (fun st' => parseDfnFrom litEval [] st' []) = _
    rw [show parseDfnLine litEval [] ⟨[("name", "q")], [], []⟩ "description REPLACE ckey \x7bbad"
        = (match litEval "\x7bbad" with
           | none => Except.error (.literalEvalFail "\x7bbad")
           | some _ => Except.ok ⟨dictSet "description" "REPLACE ckey \x7bbad"
               (dictSet "description" "REPLACE ckey \x7bbad" [("name", "q")]), [], []⟩) from by rfl]
    rw [hbad]
    rfl
  · show (parseDfnLine litEval [] ⟨[("name", "q")], [], []⟩
        "description REPLACE ckey \x7b\x27\x7b#1\x7d\x27: \x27x\x27\x7d").bind
        (fun st' => parseDfnFrom litEval [] st' [""]) = _
    rw [show parseDfnLine litEval [] ⟨[("name", "q")], [], []⟩
          "description REPLACE ckey \x7b\x27\x7b#1\x7d\x27: \x27x\x27\x7d"
        = (match litEval "\x7b\x27\x7b#1\x7d\x27: \x27x\x27\x7d" with
           | none => Except.error (.literalEvalFail "\x7b\x27\x7b#1\x7d\x27: \x27x\x27\x7d")
           | some _ => Except.ok ⟨dictSet "description"
               "REPLACE ckey \x7b\x27\x7b#1\x7d\x27: \x27x\x27\x7d"
               (dictSet "description" "REPLACE ckey \x7b\x27\x7b#1\x7d\x27: \x27x\x27\x7d"
                 [("name", "q")]), [], []⟩) from by rfl]
    rw [hok]
    rfl

/-- C7 (counterexample): a REPLACE directive with a malformed literal mapping
is fatal — `parse_dfn` propagates the literal-eval failure instead of keeping
the unsubstituted text. -/
theorem parseDfn_replace_malformed_cex :
    parseDfn miniLitEval [] ["name q", "description REPLACE ckey \x7bbad"]
      = .error (.literalEvalFail "\x7bbad") := by decide

theorem parseDfn_replace_malformed_fatal_witness :
    parseDfn miniLitEval [] ["name q", "description REPLACE ckey \x7bbad"]
      = .error (.literalEvalFail "\x7bbad")
    ∧ parseDfn miniLitEval [] ["name q",
        "description REPLACE ckey \x7b\x27\x7b#1\x7d\x27: \x27x\x27\x7d", ""]
      = .ok ([("q", [("name", "q"),
          ("description", "REPLACE ckey \x7b\x27\x7b#1\x7d\x27: \x27x\x27\x7d")])], []) :=
  parseDfn_replace_malformed_fatal miniLitEval [("\x7b#1\x7d", "x")] rfl rfl

/-- C8: The input transformer maps a NUMBER item without a decimal point or
exponent marker to an integer and one with either marker to a float: `"42"`
transforms to the integer `42`, `"3.14"` to the float with exact decimal
value `3.14`, and `"1.5e-3"` to the float with exact decimal value `0.0015`. -/
theorem numberTransform_literal_law :
    numberTransform "42" = .ok (.int 42)
    ∧ (numberTransform "3.14" = .ok (.float 314 100) ∧ floatVal 314 100 = 3.14)
    ∧ (numberTransform "1.5e-3" = .ok (.float 15 10000) ∧ floatVal 15 10000 = 1.5e-3
        ∧ floatVal 15 10000 = 0.0015) := by
  refine ⟨by decide, ⟨by decide, ?_⟩, by decide, ?_, ?_⟩ <;> norm_num [floatVal]

/-- C9: When transforming a row-record block line against the known column
names, a line with at least as many items as columns becomes a record binding
each column name positionally with the extra items kept as a separate
overflow sequence; a line with fewer items than columns is kept as a plain
unstructured line; non-line entries pass through unchanged. -/
theorem structureRecarrayData_binding {α : Type} (names : List String)
    (items short : List α) (flds : List (String × α)) (ovf : List α)
    (hlong : names.length ≤ items.length) (hshort : short.length < names.length) :
    structureRecarrayData names [.line items]
      = [.record (names.zip items) (items.drop names.length)]
    ∧ structureRecarrayData names [.line short] = [.line short]
    ∧ structureRecarrayData names [.record flds ovf] = [.record flds ovf] := by
  refine ⟨?_, ?_, ?_⟩
  · simp only [structureRecarrayData, List.map]
    rw [if_pos hlong]
    rcases lt_or_eq_of_le hlong with h | h
    · rw [if_pos h]
    · rw [if_neg (by omega), h, List.drop_length]
  · simp only [structureRecarrayData, List.map]
    rw [if_neg (by omega)]
  · simp [structureRecarrayData]

theorem structureRecarrayData_binding_witness :
    structureRecarrayData ["a", "b"] [.line [(1 : ℤ), 2, 3]]
      = [.record [("a", 1), ("b", 2)] [3]]
    ∧ structureRecarrayData ["a", "b"] [.line [(9 : ℤ)]] = [.line [9]]
    ∧ structureRecarrayData ["a", "b"] [.record [("a", (7 : ℤ))] []] = [.record [("a", 7)] []] :=
  structureRecarrayData_binding ["a", "b"] [(1 : ℤ), 2, 3] [9] [("a", 7)] [] (by decide) (by decide)

/-- C10 (amended): Parent inference in `to_tree` is applied unconditionally,
not only when `parent` is unset: a component whose name is `"sim-nam"` or
matches none of the name rules keeps its parent, but a component whose name
matches a rule (in particular any hyphenated name other than `"sim-nam"`) has
its parent overwritten with the inferred value — the result is independent of
whatever parent was already set. -/
theorem setParent_inference_unconditional (d : DfnN) (p1 p2 : Option String) :
    ((d.name = "sim-nam" ∨ (pyEndsWith d.name "-nam" = false ∧ pyStartsWith d.name "exg-" = false ∧
        pyStartsWith d.name "sln-" = false ∧ pyStartsWith d.name "utl-" = false ∧
        pyContains d.name "-" = false)) →
      d.parent ≠ some "" → (setParent d).parent = d.parent)
    ∧ (d.name ≠ "sim-nam" → pyContains d.name "-" = true →
        (setParent (d.withParent p1)).parent = (setParent (d.withParent p2)).parent) := by
  constructor
  · rintro (hn | ⟨h1, h2, h3, h4, h5⟩) hp
    · have hb : (d.parent == some "") = false := by
        rw [beq_eq_false_iff_ne]; exact hp
      simp [setParent, hn, hb]
    · have hb : (d.parent == some "") = false := by
        rw [beq_eq_false_iff_ne]; exact hp
      simp [setParent, h1, h2, h3, h4, h5, hb]
  · intro hn hdash
    simp only [setParent, DfnN.name_withParent, DfnN.parent_withParent]
    split_ifs <;>
      simp_all [DfnN.parent_withParent, some_append_nam_ne_some_empty]

/-- C10 (counterexample): a component that already carries a parent does not
keep it: `gwf-dis` arrives with parent `sim-nam` and leaves `set_parent` with
parent `gwf-nam`. -/
theorem setParent_overwrites_parent_cex :
    (setParent (DfnN.mk "2" "gwf-dis" (some "sim-nam") false false none none none)).parent
      = some "gwf-nam"
    ∧ (DfnN.mk "2" "gwf-dis" (some "sim-nam") false false none none none).parent
      = some "sim-nam"
    ∧ (some "gwf-nam" : Option String) ≠ some "sim-nam" :=
  ⟨rfl, rfl, by decide⟩

theorem setParent_inference_unconditional_witness :
    (setParent (DfnN.mk "2" "plain" (some "whatever") false false none none none)).parent
      = some "whatever"
    ∧ (setParent ((DfnN.mk "2" "gwf-dis" none false false none none none).withParent (some "a"))).parent
      = (setParent ((DfnN.mk "2" "gwf-dis" none false false none none none).withParent (some "b"))).parent := by
  refine ⟨?_, ?_⟩
  · exact (setParent_inference_unconditional
      (DfnN.mk "2" "plain" (some "whatever") false false none none none) none none).1
      (Or.inr (by refine ⟨by decide, by decide, by decide, by decide, by decide⟩)) (by decide)
  · exact (setParent_inference_unconditional
      (DfnN.mk "2" "gwf-dis" none false false none none none) (some "a") (some "b")).2
      (by decide) (by decide)

end MFDev


namespace MFDev

theorem lookup_eq_none_iff {β : Type} (j : String) (l : List (String × β)) :
    List.lookup j l = none ↔ j ∉ l.map Prod.fst := by
  induction l with
  | nil => simp
  | cons hd tl ih =>
    by_cases h : j = hd.1
    · simp [List.lookup, h]
    · simp [List.lookup, h, ih, beq_eq_false_iff_ne.mpr h]

theorem lookup_mem {β : Type} {j : String} {v : β} {l : List (String × β)}
    (h : List.lookup j l = some v) : (j, v) ∈ l := by
  induction l with
  | nil => cases h
  | cons hd tl ih =>
    by_cases hj : j = hd.1
    · subst hj
      simp [List.lookup] at h
      subst h
      exact List.mem_cons_self _ _
    · rw [List.lookup, beq_eq_false_iff_ne.mpr hj] at h
      exact List.mem_cons_of_mem _ (ih h)

theorem lookup_of_mem_nodup {β : Type} {j : String} {v : β} {l : List (String × β)}
    (hm : (j, v) ∈ l) (hnd : (l.map Prod.fst).Nodup) : List.lookup j l = some v := by
  induction l with
  | nil => cases hm
  | cons hd tl ih =>
    rw [List.map_cons, List.nodup_cons] at hnd
    rcases List.mem_cons.mp hm with h | h
    · rw [← h]
      simp [List.lookup]
    · have hj : j ≠ hd.1 := by
        intro he
        exact hnd.1 (he ▸ List.mem_map.mpr ⟨(j, v), h, rfl⟩)
      rw [List.lookup, beq_eq_false_iff_ne.mpr hj]
      exact ih h hnd.2

theorem mapM_ok {β γ : Type} (g : β → Except HErrN γ) (h : β → γ) (cs : List β)
    (hall : ∀ c ∈ cs, g c = .ok (h c)) : cs.mapM g = .ok (cs.map h) := by
  induction cs with
  | nil => rfl
  | cons hd tl ih =>
    rw [List.mapM_cons, hall hd (List.mem_cons_self _ _),
      ih (fun c hc => hall c (List.mem_cons_of_mem _ hc))]
    rfl

theorem toFlat_mk (v n : String) (p : Option String) (a m : Bool)
    (r : Option (String × String)) (b : Option (List (String × List (String × F2))))
    (c : Option (List (String × DfnN))) :
    toFlat (.mk v n p a m r b c)
      = ((childListN c).map (fun x => toFlat x.2)).flatten.foldl
          (fun acc kv => dictSet kv.1 kv.2 acc) [(n, .mk v n p a m r b none)] := by
  rw [toFlat]
  congr 2
  exact List.attach_map_coe (childListN c) (fun (x : String × DfnN) => toFlat x.2)

theorem lookup_dictSet {β : Type} (k : String) (v : β) (l : List (String × β)) (j : String) :
    List.lookup j (dictSet k v l) = if j = k then some v else List.lookup j l := by
  induction l with
  | nil =>
    by_cases h : j = k
    · simp [dictSet, List.lookup, h]
    · simp [dictSet, List.lookup, h, beq_eq_false_iff_ne.mpr h]
  | cons hd tl ih =>
    rw [dictSet]
    by_cases hk : hd.1 = k
    · rw [if_pos (by simp [hk])]
      by_cases hj : j = k
      · simp [List.lookup, hj]
      · simp [List.lookup, hj, beq_eq_false_iff_ne.mpr hj,
          beq_eq_false_iff_ne.mpr (show j ≠ hd.1 from fun he => hj (he.trans hk))]
    · rw [if_neg (by simp [hk])]
      by_cases hj : j = hd.1
      · have hjk : j ≠ k := fun he => hk (hj ▸ he)
        simp [List.lookup, beq_iff_eq.mpr hj, hjk]
      · simp [List.lookup, beq_eq_false_iff_ne.mpr hj, ih]

theorem mem_dictSet {β : Type} {p : String × β} {k : String} {v : β} {l : List (String × β)}
    (h : p ∈ dictSet k v l) : p = (k, v) ∨ p ∈ l := by
  induction l with
  | nil => simpa [dictSet] using h
  | cons hd tl ih =>
    rw [dictSet] at h
    by_cases hk : (hd.1 == k) = true
    · rw [if_pos hk] at h
      rcases List.mem_cons.mp h with h | h
      · exact Or.inl h
      · exact Or.inr (List.mem_cons_of_mem _ h)
    · rw [if_neg hk] at h
      rcases List.mem_cons.mp h with h | h
      · exact Or.inr (h ▸ List.mem_cons_self _ _)
      · rcases ih h with h | h
        · exact Or.inl h
        · exact Or.inr (List.mem_cons_of_mem _ h)

theorem mem_foldl_dictSet {β : Type} {p : String × β} (adds : List (String × β)) :
    ∀ init : List (String × β),
    p ∈ adds.foldl (fun acc kv => dictSet kv.1 kv.2 acc) init → p ∈ init ∨ p ∈ adds := by
  induction adds with
  | nil => intro init h; exact Or.inl h
  | cons hd tl ih =>
    intro init h
    rw [List.foldl_cons] at h
    rcases ih (dictSet hd.1 hd.2 init) h with h | h
    · rcases mem_dictSet h with h | h
      · exact Or.inr (by rw [h, ← Prod.mk.eta (p := hd)]; exact List.mem_cons_self _ _)
      · exact Or.inl h
    · exact Or.inr (List.mem_cons_of_mem _ h)

theorem lookup_foldl_dictSet_agree {β : Type} {j : String} {w : β} (adds : List (String × β)) :
    ∀ init : List (String × β),
    (List.lookup j init = some w ∨ List.lookup j init = none) →
    (∀ p ∈ adds, p.1 = j → p.2 = w) →
    (List.lookup j init = some w ∨ ∃ p ∈ adds, p.1 = j) →
    List.lookup j (adds.foldl (fun acc kv => dictSet kv.1 kv.2 acc) init) = some w := by
  induction adds with
  | nil =>
    intro init h1 _ h3
    rcases h3 with h | ⟨p, hp, _⟩
    · exact h
    · cases hp
  | cons hd tl ih =>
    intro init h1 h2 h3
    rw [List.foldl_cons]
    apply ih (dictSet hd.1 hd.2 init)
    · rw [lookup_dictSet]
      by_cases hj : j = hd.1
      · left
        rw [if_pos hj, h2 hd (List.mem_cons_self _ _) hj.symm]
      · rw [if_neg hj]
        exact h1
    · exact fun p hp => h2 p (List.mem_cons_of_mem _ hp)
    · rw [lookup_dictSet]
      by_cases hj : j = hd.1
      · left
        rw [if_pos hj, h2 hd (List.mem_cons_self _ _) hj.symm]
      · rcases h3 with h | ⟨p, hp, hpj⟩
        · left
          rw [if_neg hj]
          exact h
        · rcases List.mem_cons.mp hp with he | he
          · exact absurd (by rw [he] at hpj; exact hpj.symm) hj
          · exact Or.inr ⟨p, he, hpj⟩

theorem chain_snoc (dfns : List (String × DfnN)) :
    ∀ n j c, ChainUp dfns n j c → ∀ dc k, List.lookup c dfns = some dc →
    dc.parent = some k → ChainUp dfns (n + 1) j k := by
  intro n
  induction n with
  | zero =>
    intro j c h dc k hl hp
    cases h
    exact ChainUp.step _ k k 0 dc hl hp (ChainUp.refl k)
  | succ n ih =>
    intro j c h dc k hl hp
    cases h with
    | step _ p _ _ d hl2 hp2 hc => exact ChainUp.step j p k (n + 1) d hl2 hp2 (ih p c hc dc k hl hp)

theorem chain_decomp (dfns : List (String × DfnN)) :
    ∀ n j k, ChainUp dfns (n + 1) j k →
    ∃ c dc, ChainUp dfns n j c ∧ List.lookup c dfns = some dc ∧ dc.parent = some k := by
  intro n
  induction n with
  | zero =>
    intro j k h
    cases h with
    | step _ p _ _ d hl hp hc =>
      cases hc
      exact ⟨j, d, ChainUp.refl j, hl, hp⟩
  | succ n ih =>
    intro j k h
    cases h with
    | step _ p _ _ d hl hp hc =>
      obtain ⟨c, dc, hcc, hlc, hpc⟩ := ih p k hc
      exact ⟨c, dc, ChainUp.step j p c n d hl hp hcc, hlc, hpc⟩

theorem chain_depth (dfns : List (String × DfnN)) (D : String → ℕ)
    (hdepthL : ∀ j d p, List.lookup j dfns = some d → d.parent = some p → D j = D p + 1) :
    ∀ n j x, ChainUp dfns n j x → D j = D x + n := by
  intro n
  induction n with
  | zero =>
    intro j x h
    cases h
    simp
  | succ n ih =>
    intro j x h
    cases h with
    | step _ p _ _ d hl hp hc =>
      rw [hdepthL j d p hl hp, ih p x hc]
      ring

end MFDev

namespace MFDev

theorem buildTree_toFlat (dfns : List (String × DfnN))
    (hname : ∀ j d, List.lookup j dfns = some d → d.name = j)
    (hchild : ∀ j d, List.lookup j dfns = some d → d.children = none)
    (hnodup : (dfns.map Prod.fst).Nodup) :
    ∀ fuel k node, List.lookup k dfns = some node →
    (∀ j n, ChainUp dfns n j k → n < fuel) →
    ∃ t, buildTree dfns fuel k = .ok t
      ∧ (∀ p ∈ toFlat t, List.lookup p.1 dfns = some p.2)
      ∧ (∀ j n, ChainUp dfns n j k → List.lookup j (toFlat t) = List.lookup j dfns) := by
  intro fuel
  induction fuel with
  | zero =>
    intro k node hk hcb
    exact absurd (hcb k 0 (ChainUp.refl k)) (by omega)
  | succ fuel ih =>
    intro k node hk hcb
    have hchildmem : ∀ c ∈ (dfns.filter (fun p => p.2.parent == some k)).map Prod.fst,
        ∃ dc, List.lookup c dfns = some dc ∧ dc.parent = some k := by
      intro c hc
      obtain ⟨p, hpC, hpc⟩ := List.mem_map.mp hc
      have hmem : p ∈ dfns := List.mem_of_mem_filter hpC
      have hcond := List.of_mem_filter hpC
      refine ⟨p.2, ?_, by simpa using hcond⟩
      rw [← hpc]
      exact lookup_of_mem_nodup (by rw [Prod.mk.eta]; exact hmem) hnodup
    by_cases hemp : ((dfns.filter (fun p => p.2.parent == some k)).map Prod.fst).isEmpty
    · -- leaf: no children
      refine ⟨node, ?_, ?_, ?_⟩
      · rw [buildTree, hk]
        simp only [hemp]
        rfl
      · intro p hp
        obtain ⟨nv, nn, np, na, nm, nr, nb, nc⟩ := node
        have hnn : nn = k := hname k _ hk
        have hnc : nc = none := hchild k _ hk
        subst hnn hnc
        rw [toFlat_mk] at hp
        simp only [childListN, List.map_nil, List.flatten_nil, List.foldl_nil] at hp
        rcases List.mem_singleton.mp hp with h
        rw [h]
        exact hk
      · intro j n hchain
        cases n with
        | zero =>
          cases hchain
          obtain ⟨nv, nn, np, na, nm, nr, nb, nc⟩ := node
          have hnn : nn = k := hname k _ hk
          have hnc : nc = none := hchild k _ hk
          subst hnn hnc
          rw [toFlat_mk]
          simp only [childListN, List.map_nil, List.flatten_nil, List.foldl_nil]
          rw [hk]
          simp [List.lookup]
        | succ m =>
          obtain ⟨c, dc, _, hlc, hpc⟩ := chain_decomp dfns m j k hchain
          exfalso
          have hcC : c ∈ (dfns.filter (fun p => p.2.parent == some k)).map Prod.fst := by
            refine List.mem_map.mpr ⟨(c, dc), List.mem_filter.mpr ⟨lookup_mem hlc, by simp [hpc]⟩, rfl⟩
          rw [List.isEmpty_iff] at hemp
          rw [hemp] at hcC
          cases hcC
    · -- interior node
      have hcb' : ∀ c ∈ (dfns.filter (fun p => p.2.parent == some k)).map Prod.fst,
          ∀ j n, ChainUp dfns n j c → n < fuel := by
        intro c hc j n hchain
        obtain ⟨dc, hlc, hpc⟩ := hchildmem c hc
        have := hcb j (n + 1) (chain_snoc dfns n j c hchain dc k hlc hpc)
        omega
      have hok : ∀ c ∈ (dfns.filter (fun p => p.2.parent == some k)).map Prod.fst,
          buildTree dfns fuel c
              = .ok (match buildTree dfns fuel c with | .ok t => t | .error _ => default)
            ∧ (∀ p ∈ toFlat (match buildTree dfns fuel c with | .ok t => t | .error _ => default),
                List.lookup p.1 dfns = some p.2)
            ∧ (∀ j n, ChainUp dfns n j c →
                List.lookup j (toFlat (match buildTree dfns fuel c with | .ok t => t | .error _ => default))
                  = List.lookup j dfns) := by
        intro c hc
        obtain ⟨dc, hlc, hpc⟩ := hchildmem c hc
        obtain ⟨t, hbt, hsound, hcomp⟩ := ih c dc hlc (hcb' c hc)
        rw [hbt]
        exact ⟨rfl, hsound, hcomp⟩
      obtain ⟨nv, nn, np, na, nm, nr, nb, nc⟩ := node
      have hnn : nn = k := hname k _ hk
      have hnc : nc = none := hchild k _ hk
      subst hnn hnc
      set cn := List.map Prod.fst (List.filter (fun p => p.2.parent == some nn) dfns) with hcn
      have hmapM : cn.mapM (fun c => (buildTree dfns fuel c).map (fun t => (c, t)))
          = .ok (cn.map
              (fun c => (c, match buildTree dfns fuel c with | .ok t => t | .error _ => default))) := by
        apply mapM_ok
        intro c hc
        rw [(hok c hc).1]
        rfl
      refine ⟨DfnN.mk nv nn np na nm nr nb
        (some (cn.map
          (fun c => (c, match buildTree dfns fuel c with | .ok t => t | .error _ => default)))),
        ?_, ?_, ?_⟩
      · rw [buildTree, hk]
        simp only [Bool.not_eq_true] at hemp
        simp only [← hcn, hemp, Bool.false_eq_true, if_false, hmapM]
        rfl
      · intro p hp
        rw [toFlat_mk] at hp
        simp only [childListN, List.map_map] at hp
        rcases mem_foldl_dictSet _ _ hp with h | h
        · rcases List.mem_singleton.mp h with h
          rw [h]
          exact hk
        · obtain ⟨l, hl, hpl⟩ := List.mem_flatten.mp h
          obtain ⟨c, hc, hlc⟩ := List.mem_map.mp hl
          have := (hok c hc).2.1 p (by rw [← hlc] at hpl; exact hpl)
          exact this
      · intro j n hchain
        have hlj : ∃ dj, List.lookup j dfns = some dj := by
          cases n with
          | zero => cases hchain; exact ⟨_, hk⟩
          | succ m =>
            cases hchain with
            | step _ p _ _ d hl _ _ => exact ⟨d, hl⟩
        obtain ⟨dj, hlj⟩ := hlj
        rw [toFlat_mk]
        simp only [childListN, List.map_map]
        rw [hlj]
        apply lookup_foldl_dictSet_agree
        · by_cases hjk : j = nn
          · subst hjk
            left
            rw [hk] at hlj
            injection hlj with he
            simp [List.lookup, he]
          · right
            simp [List.lookup, beq_eq_false_iff_ne.mpr hjk]
        · intro p hp hpj
          obtain ⟨l, hl, hpl⟩ := List.mem_flatten.mp hp
          obtain ⟨c, hc, hlc⟩ := List.mem_map.mp hl
          have := (hok c hc).2.1 p (by rw [← hlc] at hpl; exact hpl)
          rw [hpj, hlj] at this
          injection this with he
          exact he.symm
        · cases n with
          | zero =>
            cases hchain
            left
            rw [hk] at hlj
            injection hlj with he
            simp [List.lookup, he]
          | succ m =>
            obtain ⟨c, dc, hchain2, hlc, hpc⟩ := chain_decomp dfns m j nn hchain
            have hcC : c ∈ cn :=
              List.mem_map.mpr ⟨(c, dc), List.mem_filter.mpr ⟨lookup_mem hlc, by simp [hpc]⟩, rfl⟩
            have hlook := (hok c hcC).2.2 j m hchain2
            rw [hlj] at hlook
            right
            refine ⟨(j, dj), ?_, rfl⟩
            apply List.mem_flatten.mpr
            refine ⟨toFlat (match buildTree dfns fuel c with | .ok t => t | .error _ => default),
              List.mem_map.mpr ⟨c, hcC, rfl⟩, lookup_mem hlook⟩
end MFDev

namespace MFDev

/-- `set_parent` only ever rewrites the `parent` attribute: if it leaves
`parent` unchanged it leaves the whole component unchanged. -/
theorem setParent_eq_of_parent_eq (d : DfnN) (h : (setParent d).parent = d.parent) :
    setParent d = d := by
  obtain ⟨v, n, p, a, m, r, b, c⟩ := d
  simp only [setParent, DfnN.name, DfnN.parent, DfnN.withParent] at h ⊢
  split_ifs at h ⊢ <;>
    simp_all [DfnN.parent, DfnN.withParent, some_append_nam_ne_some_empty]

/-- In a parent-closed component map with a depth certificate and a unique
parentless component, every component reaches the root along parent
pointers. -/
theorem chain_to_root (dfns : List (String × DfnN)) (rt : String × DfnN) (D : String → ℕ)
    (hroot : ∀ p ∈ dfns, p.2.parent = none → p = rt)
    (hclosure : ∀ j d q, List.lookup j dfns = some d → d.parent = some q →
      ∃ dq, List.lookup q dfns = some dq)
    (hdepthL : ∀ j d q, List.lookup j dfns = some d → d.parent = some q → D j = D q + 1) :
    ∀ m j d, D j = m → List.lookup j dfns = some d → ∃ n, ChainUp dfns n j rt.1 := by
  intro m
  induction m using Nat.strong_induction_on with
  | _ m ih =>
    intro j d hD hj
    cases hp : d.parent with
    | none =>
      have heq := hroot (j, d) (lookup_mem hj) hp
      refine ⟨0, ?_⟩
      rw [show j = rt.1 from congrArg Prod.fst heq]
      exact ChainUp.refl _
    | some q =>
      obtain ⟨dq, hq⟩ := hclosure j d q hj hp
      have hDj : D j = D q + 1 := hdepthL j d q hj hp
      obtain ⟨n, hc⟩ := ih (D q) (by omega) q dq rfl hq
      exact ⟨n + 1, ChainUp.step j q rt.1 n d hj hp hc⟩

/-- C4 (amended): the `to_flat`/`to_tree` round trip holds for v2 component
maps on which parent inference is a no-op: if keys are component names,
`children` are unpopulated, every `schema_version` is `"2"`, keys are
distinct, `set_parent` leaves every stored `parent` unchanged, there is
exactly one parentless component, every stored parent is itself a key, and a
depth certificate `D` bounds ancestor chains by the map size, then `to_tree`
succeeds and every key looks up to the same component in
`to_flat (to_tree dfns)` as in `dfns`. -/
theorem toTree_toFlat_roundtrip (dfns0 : List (String × DfnN)) (rt : String × DfnN)
    (D : String → ℕ) (j : String)
    (hfix : ∀ p ∈ dfns0, (setParent p.2).parent = p.2.parent)
    (hname : ∀ p ∈ dfns0, p.2.name = p.1)
    (hchild : ∀ p ∈ dfns0, p.2.children.isNone = true)
    (hver : ∀ p ∈ dfns0, p.2.schema_version = "2")
    (hnodup : (dfns0.map Prod.fst).Nodup)
    (hroots : rootsN dfns0 = [rt])
    (hclosure : ∀ p ∈ dfns0, p.2.parent.all (fun q => (List.lookup q dfns0).isSome) = true)
    (hdepth : ∀ p ∈ dfns0, p.2.parent.all (fun q => D p.1 == D q + 1) = true)
    (hbound : ∀ p ∈ dfns0, D p.1 ≤ dfns0.length) :
    (toTree dfns0).map (fun t => List.lookup j (toFlat t))
      = Except.ok (List.lookup j dfns0) := by
  have hnameL : ∀ k d, List.lookup k dfns0 = some d → d.name = k :=
    fun k d h => hname (k, d) (lookup_mem h)
  have hchildL : ∀ k d, List.lookup k dfns0 = some d → d.children = none :=
    fun k d h => Option.isNone_iff_eq_none.mp (hchild (k, d) (lookup_mem h))
  have hclosureL : ∀ k d q, List.lookup k dfns0 = some d → d.parent = some q →
      ∃ dq, List.lookup q dfns0 = some dq := by
    intro k d q h hp
    have hc := hclosure (k, d) (lookup_mem h)
    rw [show (k, d).2.parent = some q from hp] at hc
    simp only [Option.all] at hc
    exact Option.isSome_iff_exists.mp hc
  have hdepthL : ∀ k d q, List.lookup k dfns0 = some d → d.parent = some q →
      D k = D q + 1 := by
    intro k d q h hp
    have hc := hdepth (k, d) (lookup_mem h)
    rw [show (k, d).2.parent = some q from hp] at hc
    simp only [Option.all] at hc
    exact eq_of_beq hc
  have hinfer : inferParents dfns0 = dfns0 := by
    unfold inferParents
    have hcg : ∀ p ∈ dfns0, (fun p : String × DfnN => (p.1, setParent p.2)) p = id p := by
      intro p hp
      have := setParent_eq_of_parent_eq p.2 (hfix p hp)
      simp [this]
    rw [List.map_congr_left hcg, List.map_id]
  have hfilter : dfns0.filter (fun p => p.2.parent == none) = [rt] := by
    have h := hroots
    unfold rootsN at h
    rw [hinfer] at h
    exact h
  have hroot : ∀ p ∈ dfns0, p.2.parent = none → p = rt := by
    intro p hp hpn
    have hm : p ∈ dfns0.filter (fun p => p.2.parent == none) :=
      List.mem_filter.mpr ⟨hp, by simp [hpn]⟩
    rw [hfilter] at hm
    exact List.mem_singleton.mp hm
  have hrtf : rt ∈ dfns0.filter (fun p => p.2.parent == none) := by
    rw [hfilter]
    exact List.mem_singleton.mpr rfl
  have hrtmem : rt ∈ dfns0 := List.mem_of_mem_filter hrtf
  have hrtlook : List.lookup rt.1 dfns0 = some rt.2 :=
    lookup_of_mem_nodup (by rw [Prod.mk.eta]; exact hrtmem) hnodup
  have hcb : ∀ k n, ChainUp dfns0 n k rt.1 → n < dfns0.length + 1 := by
    intro k n hc
    have hkl : ∃ dk, List.lookup k dfns0 = some dk := by
      cases n with
      | zero => cases hc; exact ⟨rt.2, hrtlook⟩
      | succ m => cases hc with | step _ p _ _ d hl _ _ => exact ⟨d, hl⟩
    obtain ⟨dk, hkl⟩ := hkl
    have hD := chain_depth dfns0 D hdepthL n k rt.1 hc
    have hb : D k ≤ dfns0.length := hbound (k, dk) (lookup_mem hkl)
    omega
  obtain ⟨t, hbt, hsound, hcomp⟩ := buildTree_toFlat dfns0 hnameL hchildL hnodup
    (dfns0.length + 1) rt.1 rt.2 hrtlook (fun k n hc => hcb k n hc)
  have hne : dfns0 ≠ [] := by
    intro hnil
    rw [hnil] at hfilter
    cases hfilter
  obtain ⟨p0, rest, rfl⟩ := List.exists_cons_of_ne_nil hne
  have hv0 : p0.2.schema_version = "2" := hver p0 (List.mem_cons_self _ _)
  have htt : toTree (p0 :: rest) = buildTree (p0 :: rest) ((p0 :: rest).length + 1) rt.1 := by
    unfold toTree
    simp only [hinfer, List.head?_cons, hv0, hroots]
    rw [if_pos trivial]
    rw [if_neg (show ¬ ([rt].length ≠ 1) from by simp)]
    rfl
  rw [htt, hbt]
  show Except.ok (List.lookup j (toFlat t)) = Except.ok (List.lookup j (p0 :: rest))
  by_cases hj : ∃ dj, List.lookup j (p0 :: rest) = some dj
  · obtain ⟨dj, hjl⟩ := hj
    obtain ⟨n, hchain⟩ := chain_to_root (p0 :: rest) rt D hroot hclosureL hdepthL
      (D j) j dj rfl hjl
    rw [hcomp j n hchain]
  · have hnone : List.lookup j (p0 :: rest) = none := by
      cases hl : List.lookup j (p0 :: rest) with
      | none => rfl
      | some v => exact absurd ⟨v, hl⟩ hj
    rw [hnone]
    congr 1
    cases hl : List.lookup j (toFlat t) with
    | none => rfl
    | some v =>
      have hs := hsound (j, v) (lookup_mem hl)
      rw [hs] at hnone
      cases hnone

end MFDev

namespace MFDev

/-- C4 (counterexample): a flat map satisfying the single-root invariant on
which the round trip fails. `utl-tvs` arrives with parent `gwf-nam`; the map
has exactly one parentless component, yet `to_tree` overwrites the parent
with the inferred `sim-nam`, so flattening the tree does not reproduce the
input. -/
theorem toTree_toFlat_not_roundtrip_cex :
    (rootsN cexDfnsC4).length = 1
    ∧ (toTree cexDfnsC4).map (fun t => (List.lookup "utl-tvs" (toFlat t)).map DfnN.parent)
        = Except.ok (some (some "sim-nam"))
    ∧ (List.lookup "utl-tvs" cexDfnsC4).map DfnN.parent = some (some "gwf-nam")
    ∧ (some (some "sim-nam") : Option (Option String)) ≠ some (some "gwf-nam") := by
  refine ⟨rfl, ?_, rfl, by decide⟩
  have h1 : toTree cexDfnsC4 = Except.ok (DfnN.mk "2" "sim-nam" none false false none none
      (some [("utl-tvs", DfnN.mk "2" "utl-tvs" (some "sim-nam") false false none none none)])) :=
    rfl
  rw [h1]
  have h2 : toFlat (DfnN.mk "2" "sim-nam" none false false none none
      (some [("utl-tvs", DfnN.mk "2" "utl-tvs" (some "sim-nam") false false none none none)]))
      = [("sim-nam", DfnN.mk "2" "sim-nam" none false false none none none),
         ("utl-tvs", DfnN.mk "2" "utl-tvs" (some "sim-nam") false false none none none)] := by
    simp [toFlat_mk, childListN, dictSet]
  simp only [Except.map, h2]
  rfl

theorem toTree_toFlat_roundtrip_witness :
    (toTree exDfnsC4).map (fun t => List.lookup "gwf-dis" (toFlat t))
      = Except.ok (List.lookup "gwf-dis" exDfnsC4) :=
  toTree_toFlat_roundtrip exDfnsC4 rtC4 depthC4 "gwf-dis"
    (by decide) (by decide) (by decide) (by decide) (by decide)
    rfl (by decide) (by decide) (by decide)

end MFDev
